import Mathlib

/-!
Shallow embedding of the binary-heap engine in `ands/ds/Heap.py`.

The engine (`BinaryHeap`) is an abstract class: its invariant-maintenance
hooks `_push_down` and `_push_up` are `@abstractmethod`s supplied by a
concrete ordering variant.  We therefore model the heap state as the plain
node sequence `List BHNode` (the `self.heap` attribute) and parameterize the
operations that invoke a hook over a function argument; the operations are
additionally instrumented to return the list of indices the hook was called
with, so that claims about who is called, how often and in which order are
statable.

Python keys may be any comparable values; the engine itself never compares
keys by order (ordering lives in the concrete variants), it only uses node
equality (`__eq__`, key and value together) in `search`.  Keys and values are
therefore modelled as `Int`, which has the decidable equality the engine
needs.  Exceptions are modelled with `Except` over an error-kind enumeration
(`ValueError` on absent input keys or values, `ValueError` on wrong pair
arity, `IndexError` on bad indices) matching the distinct raise sites of the
source.  The real-valued `math.log2` of the source is modelled exactly by
`Nat.log2` (the floor of the base-2 logarithm), since for every machine
index the truncated float expression of the source equals that floor.
-/

namespace Ands

/-- Error kinds surfaced by the engine; each corresponds to a distinct raise
site of the source (`ValueError` for absent keys or values, `ValueError` for
malformed pair arity, `IndexError` for bad indices, plus a kind for a
hypothetical unimplemented-hook failure, which the source never raises). -/
inductive Err where
  | invalidKey
  | invalidArgument
  | invalidIndex
  | unimplemented
deriving DecidableEq, Repr

/-- A heap node (`BHNode`): a key used for ordering and a payload value.
In the source the constructor rejects an absent key and defaults the value
to the key; both are handled at the call sites modelled below.  Node
equality (`__eq__`) compares key and value together, which the derived
equality of this structure matches. -/
structure BHNode where
  key : Int
  value : Int
deriving DecidableEq, Repr

/-- An element of the collection accepted by bulk construction
(`_create_list_of_heap_nodes`): either an `int`/`float`, taken as a raw
key, or a sized indexable (tuple or list) of possibly-absent entries. -/
inductive Elem where
  | num (k : Int)
  | seq (xs : List (Option Int))
deriving DecidableEq, Repr

/-- Converts one pair-style element, mirroring the source order of checks:
first `len(x) != 2` raises (wrong arity), then an absent entry raises
(absent key or value), else `BHNode(key=x[0], value=x[1])` is built. -/
def wrap_pair (xs : List (Option Int)) : Except Err BHNode :=
  if xs.length ≠ 2 then .error .invalidArgument
  else
    match xs with
    | [some k, some v] => .ok ⟨k, v⟩
    | _ => .error .invalidKey

/-- Converts one element of the input collection: an `int`/`float` becomes
`BHNode(x)` (key and value both `x`); anything else goes through the
pair checks of `wrap_pair`. -/
def wrap_elem : Elem → Except Err BHNode
  | .num k => .ok ⟨k, k⟩
  | .seq xs => wrap_pair xs

/-- The static method `_create_list_of_heap_nodes`: converts the input
collection element by element, in order, surfacing the first failure. -/
def create_list_of_heap_nodes : List Elem → Except Err (List BHNode)
  | [] => .ok []
  | x :: rest =>
    match wrap_elem x with
    | .error e => .error e
    | .ok nd =>
      match create_list_of_heap_nodes rest with
      | .error e => .error e
      | .ok ns => .ok (nd :: ns)

/-- The sequence of indices `_build_heap` hands to `_push_down`: the Python
loop `for index in range(len(self.heap) // 2, -1, -1)` guarded by
`if self.heap`, i.e. `n // 2, n // 2 - 1, ..., 0` when the sequence is
nonempty and no iteration at all when it is empty. -/
def build_heap_indices (n : Nat) : List Nat :=
  if n = 0 then [] else (List.range (n / 2 + 1)).reverse

/-- Runs the variant hook `pd` on a list of indices in order, threading the
node sequence through (the Python loop body `self._push_down(index)`). -/
def run_push_downs (pd : Nat → List BHNode → List BHNode) :
    List Nat → List BHNode → List BHNode
  | [], h => h
  | i :: is, h => run_push_downs pd is (pd i h)

/-- The method `_build_heap`: Floyd construction, calling the variant hook
`pd` once per index of `build_heap_indices` over the current length. -/
def build_heap (pd : Nat → List BHNode → List BHNode)
    (h : List BHNode) : List BHNode :=
  run_push_downs pd (build_heap_indices h.length) h

/-- The argument shape of `add` / `search` / `contains`: either a raw key
or a pre-built `BHNode`. -/
inductive AddArg where
  | key (k : Int)
  | node (nd : BHNode)
deriving DecidableEq, Repr

/-- Wrapping performed by `add` / `search` / `contains` on a non-absent
argument: a raw key `x` becomes `BHNode(x)` (value defaults to the key),
a node is used as is. -/
def node_of : AddArg → BHNode
  | .key k => ⟨k, k⟩
  | .node nd => nd

/-- The method `add`, instrumented: returns the outcome, the node sequence
after the call, and the list of indices `_push_up` was invoked with.  The
source first rejects an absent argument, then wraps, appends, and calls
`_push_up(self.size() - 1)` when `self.size() > 1` after the append. -/
def add (pu : Nat → List BHNode → List BHNode) (x : Option AddArg)
    (h : List BHNode) : Except Err Unit × List BHNode × List Nat :=
  match x with
  | none => (.error .invalidKey, h, [])
  | some a =>
    let h1 := h ++ [node_of a]
    if h1.length > 1 then (.ok (), pu (h1.length - 1) h1, [h1.length - 1])
    else (.ok (), h1, [])

/-- The linear scan of `search`: first index whose node equals the probe
(full node equality, key and value), `-1` when none does. -/
def search_scan (nd : BHNode) : List BHNode → Int → Int
  | [], _ => -1
  | m :: rest, i => if m = nd then i else search_scan nd rest (i + 1)

/-- The method `search`, in state-passing form (the source never assigns to
`self.heap` here, so the returned sequence is the input one): rejects an
absent argument, wraps a raw key, then scans. -/
def search (x : Option AddArg) (h : List BHNode) :
    Except Err Int × List BHNode :=
  match x with
  | none => (.error .invalidKey, h)
  | some a => (.ok (search_scan (node_of a) h 0), h)

/-- The method `contains`: `self.search(x) != -1`, with a failure of
`search` propagating unchanged. -/
def contains (x : Option AddArg) (h : List BHNode) :
    Except Err Bool × List BHNode :=
  match search x h with
  | (.error e, h2) => (.error e, h2)
  | (.ok i, h2) => (.ok (i ≠ -1), h2)

/-- The method `merge`, as a transformer of the pair
(receiver sequence, donor sequence): `self.heap += o.heap` then
`self._build_heap()`.  No statement of the source writes to `o.heap`,
so the donor component passes through untouched. -/
def merge (pd : Nat → List BHNode → List BHNode)
    (self other : List BHNode) : List BHNode × List BHNode :=
  (build_heap pd (self ++ other), other)

/-- The index validity test `_is_good_index`:
`False if (i < 0 or i >= self.size()) else True`. -/
def is_good_index (i : Int) (n : Nat) : Bool :=
  if i < 0 ∨ i ≥ (n : Int) then false else true

/-- The method `_is_on_even_level`: raises on an invalid index, else
evaluates `int(math.log2(i + 1) % 2) == 0`, modelled exactly by
`Nat.log2 (i + 1) % 2 == 0` (for a valid index, `i + 1 ≥ 1`, and the
truncation of the real expression is the floor of the base-2 logarithm
taken modulo 2). -/
def is_on_even_level (i : Int) (n : Nat) : Except Err Bool :=
  if is_good_index i n then .ok (Nat.log2 (i + 1).toNat % 2 == 0)
  else .error .invalidIndex

/-- The method `_is_on_odd_level`: `not self._is_on_even_level(i)`, with a
failure propagating unchanged. -/
def is_on_odd_level (i : Int) (n : Nat) : Except Err Bool :=
  match is_on_even_level i n with
  | .error e => .error e
  | .ok b => .ok (!b)

/-- The body of the abstract hook `_push_down` as written on the base
class: the `@abstractmethod` body is `pass`, so a direct invocation does
nothing, raises nothing, and returns `None`. -/
def abstract_push_down (i : Int) (h : List BHNode) :
    Except Err (List BHNode) :=
  .ok h

/-- The body of the abstract hook `_push_up` as written on the base class:
also a bare `pass`. -/
def abstract_push_up (i : Int) (h : List BHNode) :
    Except Err (List BHNode) :=
  .ok h

/-- CPython `str.center(width, fill)`: the string itself when already at
least `width` long, else padded with `left = marg // 2 + (marg & width & 1)`
fill characters on the left and the rest on the right. -/
def center (s : String) (width : Nat) (fill : Char) : String :=
  if s.length ≥ width then s
  else
    let marg := width - s.length
    let left := marg / 2 + (marg &&& width &&& 1)
    String.mk (List.replicate left fill) ++ s
      ++ String.mk (List.replicate (marg - left) fill)

/-- The enumeration loop of `build_pretty_binary_heap`: for each node at
enumeration index `i`, the row is `floor(log(i + 1, 2))` (`0` for the
root), a row change emits `v_space = 2` newlines, and the node text is
centered in `floor(total_width * 3.0 / 2 ** row)` columns
(`h_space = 3.0`).  `last_row` starts at the sentinel `-1`. -/
def render_loop (total_width : Nat) (fill : Char) :
    List BHNode → Nat → Int → String
  | [], _, _ => ""
  | nd :: rest, i, last_row =>
    let row : Nat := if i ≠ 0 then Nat.log2 (i + 1) else 0
    let sep := if (row : Int) ≠ last_row then "\n\n" else ""
    let column_width := total_width * 3 / 2 ^ row
    sep ++ center (toString nd.key) column_width fill
      ++ render_loop total_width fill rest (i + 1) (row : Int)

/-- The function `build_pretty_binary_heap(heap, total_width=36, fill=' ')`:
the literal diagnostic string on an empty sequence, otherwise the rendered
rows followed by a newline and a separator line of `total_width + 15`
dashes ending in a newline. -/
def build_pretty_binary_heap (heap : List BHNode) (total_width : Nat)
    (fill : Char) : String :=
  if heap.length = 0 then "Nothing to print: heap is empty."
  else
    render_loop total_width fill heap 0 (-1) ++ "\n"
      ++ String.mk (List.replicate (total_width + 15) '-') ++ "\n"

/-- C8: the tree renderer applied to an empty node sequence returns exactly
the string "Nothing to print: heap is empty.", with no surrounding
whitespace, newlines, or trailing separator line, for every width and fill
character. -/
theorem claim_C8_render_empty (total_width : Nat) (fill : Char) :
    build_pretty_binary_heap [] total_width fill =
      "Nothing to print: heap is empty." :=
  rfl

/-- C9: merge never mutates the donor: the donor component of the state
after `merge` is exactly the donor's pre-call node sequence — same length,
same nodes, same order — for every hook the concrete variant supplies. -/
theorem claim_C9_merge_donor_frame (pd : Nat → List BHNode → List BHNode)
    (self other : List BHNode) :
    (merge pd self other).2 = other ∧
    (merge pd self other).2.length = other.length ∧
    ∀ j : Nat, (merge pd self other).2.get? j = other.get? j :=
  ⟨rfl, rfl, fun _ => rfl⟩

/-- C10: `search` and `contains` fail (with the absent-key error) on an
absent argument, for every heap state; neither ever treats the absent
argument as a key, returns `-1`, or returns `False` for it. -/
theorem claim_C10_absent_argument_fails (h : List BHNode) :
    (search none h).1 = .error .invalidKey ∧
    (contains none h).1 = .error .invalidKey ∧
    (search none h).1.isOk = false ∧
    (contains none h).1.isOk = false :=
  ⟨rfl, rfl, rfl, rfl⟩

/-- C6 counterexample: invoking either abstract hook directly at index 0 on
the empty sequence does not fail at all — each body is a bare `pass`, so the
call returns `None` with the sequence unchanged, rather than raising an
unimplemented-hook error as the claim states. -/
theorem claim_C6_counterexample :
    abstract_push_down 0 [] = .ok [] ∧
    (abstract_push_down 0 []).isOk = true ∧
    abstract_push_up 0 [] = .ok [] ∧
    (abstract_push_up 0 []).isOk = true :=
  ⟨rfl, rfl, rfl, rfl⟩

/-- C6 amended: invoking either abstract hook directly on the abstract
engine never fails: for every index and every sequence, the empty
(`pass`) body returns `None` and leaves the node sequence unchanged.  The
absence of a concrete ordering policy is instead enforced at construction
time by the abstract-class machinery, which refuses to instantiate the
abstract engine. -/
theorem claim_C6_amended_hooks_are_noops (i : Int) (h : List BHNode) :
    abstract_push_down i h = .ok h ∧ abstract_push_up i h = .ok h :=
  ⟨rfl, rfl⟩

/-- C1: building the heap runs the variant's push-down hook over exactly the
index sequence `build_heap_indices` of the current length; that sequence is
empty for an empty node sequence (so the build is a no-op and no hook call
is made), and for a nonempty sequence it is strictly decreasing and holds
exactly the indices from `floor(n / 2)` down to `0` inclusive, each once. -/
theorem claim_C1_build_heap_call_sequence (pd : Nat → List BHNode → List BHNode)
    (h : List BHNode) :
    build_heap pd h = run_push_downs pd (build_heap_indices h.length) h ∧
    (h = [] → build_heap_indices h.length = [] ∧ build_heap pd h = h) ∧
    (0 < h.length →
      (build_heap_indices h.length).Pairwise (· > ·) ∧
      ∀ i : Nat, i ∈ build_heap_indices h.length ↔ i ≤ h.length / 2) := by
  refine ⟨rfl, ?_, ?_⟩
  · rintro rfl
    exact ⟨rfl, rfl⟩
  · intro hpos
    have hne : h.length ≠ 0 := Nat.pos_iff_ne_zero.mp hpos
    constructor
    · rw [build_heap_indices, if_neg hne]
      exact List.pairwise_reverse.mpr (List.pairwise_lt_range _)
    · intro i
      rw [build_heap_indices, if_neg hne]
      simp [List.mem_reverse, List.mem_range, Nat.lt_succ_iff]

/-- C1 witness: the theorem instantiated at the identity hook, once at a
five-node sequence and once at the empty sequence. -/
theorem claim_C1_build_heap_call_sequence_witness :
    ((build_heap_indices 5).Pairwise (· > ·) ∧
      ∀ i : Nat, i ∈ build_heap_indices 5 ↔ i ≤ 2) ∧
    build_heap (fun _ l => l) ([] : List BHNode) = [] :=
  ⟨(claim_C1_build_heap_call_sequence (fun _ l => l)
      [⟨1, 1⟩, ⟨2, 2⟩, ⟨3, 3⟩, ⟨4, 4⟩, ⟨5, 5⟩]).2.2 (by decide),
   ((claim_C1_build_heap_call_sequence (fun _ l => l) []).2.1 rfl).2⟩

/-- C2: on an absent argument `add` fails with the absent-key error; on a
present argument it succeeds, the (possibly freshly wrapped) node sits at
index `size()` of the appended sequence, the push-up hook is invoked exactly
on the last index when more than one element is present after the append and
not at all otherwise, and — for any length-preserving hook — the size grows
by exactly 1. -/
theorem claim_C2_add (pu : Nat → List BHNode → List BHNode)
    (hpu : ∀ i l, (pu i l).length = l.length)
    (x : Option AddArg) (h : List BHNode) :
    (x = none → add pu x h = (.error .invalidKey, h, [])) ∧
    ∀ a : AddArg, x = some a →
      (add pu x h).1 = .ok () ∧
      (h ++ [node_of a])[h.length]? = some (node_of a) ∧
      (add pu x h).2.2 = (if 1 < h.length + 1 then [h.length] else []) ∧
      (add pu x h).2.1 =
        (if 1 < h.length + 1 then pu h.length (h ++ [node_of a])
          else h ++ [node_of a]) ∧
      (add pu x h).2.1.length = h.length + 1 := by
  refine ⟨fun hx => by rw [hx]; rfl, ?_⟩
  rintro a rfl
  have hlen : (h ++ [node_of a]).length = h.length + 1 := by simp
  refine ⟨?_, List.getElem?_concat_length h (node_of a), ?_, ?_, ?_⟩ <;>
    simp only [add, hlen, Nat.add_sub_cancel] <;>
    split <;>
    simp [hpu]

/-- C2 witness: the theorem instantiated at the identity hook, a raw key
and a one-node heap, so that the push-up branch is exercised. -/
theorem claim_C2_add_witness :
    (add (fun _ l => l) (some (.key 5)) [⟨1, 1⟩]).1 = .ok () ∧
    (add (fun _ l => l) (some (.key 5)) [⟨1, 1⟩]).2.1.length = 2 ∧
    add (fun _ l => l) none ([] : List BHNode) = (.error .invalidKey, [], []) := by
  have h2 := (claim_C2_add (fun _ l => l) (fun _ _ => rfl)
    (some (.key 5)) [⟨1, 1⟩]).2 (.key 5) rfl
  exact ⟨h2.1, h2.2.2.2.2,
    (claim_C2_add (fun _ l => l) (fun _ _ => rfl) none []).1 rfl⟩

/-- Helper: running any content-preserving hook over any index sequence
yields a permutation of the starting node sequence. -/
theorem run_push_downs_perm (pd : Nat → List BHNode → List BHNode)
    (hpd : ∀ i l, (pd i l).Perm l) :
    ∀ (idxs : List Nat) (h : List BHNode), (run_push_downs pd idxs h).Perm h
  | [], _ => List.Perm.refl _
  | i :: is, h => (run_push_downs_perm pd hpd is (pd i h)).trans (hpd i h)

/-- C3: merge makes the receiver's sequence the Floyd rebuild of its old
sequence concatenated with the donor's; for any content-preserving hook the
resulting size is the sum of the two sizes and the resulting multiset of
nodes is the union (multiset sum) of the two original multisets. -/
theorem claim_C3_merge_content (pd : Nat → List BHNode → List BHNode)
    (hpd : ∀ i l, (pd i l).Perm l) (s o : List BHNode) :
    (merge pd s o).1 = build_heap pd (s ++ o) ∧
    (merge pd s o).1.length = s.length + o.length ∧
    ((merge pd s o).1 : Multiset BHNode) = (s : Multiset BHNode) + o := by
  have hp : (build_heap pd (s ++ o)).Perm (s ++ o) :=
    run_push_downs_perm pd hpd _ _
  refine ⟨rfl, ?_, ?_⟩
  · simpa using hp.length_eq
  · rw [show (merge pd s o).1 = build_heap pd (s ++ o) from rfl,
      Multiset.coe_add]
    exact Multiset.coe_eq_coe.mpr hp

/-- C3 witness: the theorem instantiated at the identity hook and two
concrete one- and two-node heaps. -/
theorem claim_C3_merge_content_witness :
    (merge (fun _ l => l) [⟨1, 1⟩] [⟨2, 2⟩, ⟨3, 3⟩]).1.length = 3 ∧
    ((merge (fun _ l => l) [⟨1, 1⟩] [⟨2, 2⟩, ⟨3, 3⟩]).1 : Multiset BHNode) =
      (([⟨1, 1⟩] : List BHNode) : Multiset BHNode)
        + (([⟨2, 2⟩, ⟨3, 3⟩] : List BHNode) : Multiset BHNode) :=
  ⟨((claim_C3_merge_content (fun _ l => l) (fun _ l => List.Perm.refl l)
      [⟨1, 1⟩] [⟨2, 2⟩, ⟨3, 3⟩]).2.1),
   ((claim_C3_merge_content (fun _ l => l) (fun _ l => List.Perm.refl l)
      [⟨1, 1⟩] [⟨2, 2⟩, ⟨3, 3⟩]).2.2)⟩

/-- Helper: a successful bulk conversion yields exactly one node per input
element — success is always total, never partial. -/
theorem create_list_of_heap_nodes_length :
    ∀ (ls : List Elem) (ns : List BHNode),
      create_list_of_heap_nodes ls = .ok ns → ns.length = ls.length := by
  intro ls
  induction ls with
  | nil => intro ns hns; cases hns; rfl
  | cons x rest ih =>
    intro ns hns
    unfold create_list_of_heap_nodes at hns
    cases hw : wrap_elem x with
    | error e => rw [hw] at hns; cases hns
    | ok nd =>
      rw [hw] at hns
      cases hr : create_list_of_heap_nodes rest with
      | error e => rw [hr] at hns; cases hns
      | ok ms =>
        rw [hr] at hns
        cases hns
        simpa using ih ms hr

/-- C4: every modelled operation is atomic with respect to failure — when
`add` fails the sequence after the call is the pre-call one, `search` and
`contains` return the sequence untouched in every case (failing or not),
and bulk construction either fails producing no sequence at all or succeeds
converting every element (never a partial prefix). -/
theorem claim_C4_failure_atomicity (pu : Nat → List BHNode → List BHNode)
    (x : Option AddArg) (h : List BHNode) (ls : List Elem) :
    (∀ e : Err, (add pu x h).1 = .error e → (add pu x h).2.1 = h) ∧
    (search x h).2 = h ∧
    (contains x h).2 = h ∧
    ((∃ e, create_list_of_heap_nodes ls = .error e) ∨
      ∃ ns, create_list_of_heap_nodes ls = .ok ns ∧ ns.length = ls.length) := by
  refine ⟨?_, ?_, ?_, ?_⟩
  · intro e he
    cases x with
    | none => rfl
    | some a =>
      exfalso
      simp only [add] at he
      split at he <;> simp at he
  · cases x <;> rfl
  · cases x <;> rfl
  · cases hc : create_list_of_heap_nodes ls with
    | error e => exact Or.inl ⟨e, rfl⟩
    | ok ns => exact Or.inr ⟨ns, rfl, create_list_of_heap_nodes_length ls ns hc⟩

/-- C4 witness: the theorem instantiated at the identity hook, an absent
argument, a one-node heap and a malformed construction input. -/
theorem claim_C4_failure_atomicity_witness :
    (add (fun _ l => l) none [⟨1, 1⟩]).2.1 = [⟨1, 1⟩] ∧
    (search none [⟨1, 1⟩]).2 = [⟨1, 1⟩] ∧
    (contains none [⟨1, 1⟩]).2 = [⟨1, 1⟩] :=
  ⟨(claim_C4_failure_atomicity (fun _ l => l) none [⟨1, 1⟩]
      [.seq [none]]).1 .invalidKey rfl,
   (claim_C4_failure_atomicity (fun _ l => l) none [⟨1, 1⟩] [.seq [none]]).2.1,
   (claim_C4_failure_atomicity (fun _ l => l) none [⟨1, 1⟩]
      [.seq [none]]).2.2.1⟩

/-- Helper: a failing conversion of a suffix propagates unchanged past any
prefix of well-formed elements. -/
theorem create_list_of_heap_nodes_append_error :
    ∀ (pre : List Elem), (∀ e ∈ pre, (wrap_elem e).isOk = true) →
      ∀ (z : List Elem) (E : Err), create_list_of_heap_nodes z = .error E →
        create_list_of_heap_nodes (pre ++ z) = .error E := by
  intro pre
  induction pre with
  | nil => intro _ z E hz; simpa using hz
  | cons x rest ih =>
    intro hwf z E hz
    have hx : (wrap_elem x).isOk = true := hwf x (List.mem_cons_self x rest)
    cases hw : wrap_elem x with
    | error e => rw [hw] at hx; cases hx
    | ok nd =>
      have hrest : ∀ e ∈ rest, (wrap_elem e).isOk = true :=
        fun e he => hwf e (List.mem_cons_of_mem x he)
      show create_list_of_heap_nodes (x :: (rest ++ z)) = .error E
      unfold create_list_of_heap_nodes
      rw [hw, ih hrest z E hz]

/-- Helper: a pair element of wrong arity is rejected with the
malformed-argument error (the arity check precedes the absence check). -/
theorem wrap_pair_wrong_arity (xs : List (Option Int)) (hlen : xs.length ≠ 2) :
    wrap_pair xs = .error .invalidArgument := by
  unfold wrap_pair
  rw [if_pos hlen]

/-- Helper: a two-entry pair with an absent key or value is rejected with
the absent-key error. -/
theorem wrap_pair_absent_entry (xs : List (Option Int)) (hlen : xs.length = 2)
    (hnone : none ∈ xs) : wrap_pair xs = .error .invalidKey := by
  match xs, hlen with
  | [a, b], _ =>
    have hab : a = none ∨ b = none := by
      rcases List.mem_cons.mp hnone with h | h
      · exact Or.inl h.symm
      · rcases List.mem_cons.mp h with h2 | h2
        · exact Or.inr h2.symm
        · simp at h2
    unfold wrap_pair
    rcases hab with rfl | rfl
    · rfl
    · cases a <;> rfl

/-- C5: in bulk construction, after any prefix of well-formed elements, a
pair element of wrong arity fails with the malformed-argument error while a
two-entry pair containing an absent key or value fails with the absent-key
error, and the two error kinds are distinguishable. -/
theorem claim_C5_construction_error_kinds (pre post : List Elem)
    (xs : List (Option Int)) (hpre : ∀ e ∈ pre, (wrap_elem e).isOk = true) :
    (xs.length ≠ 2 →
      create_list_of_heap_nodes (pre ++ .seq xs :: post) =
        .error .invalidArgument) ∧
    (xs.length = 2 → none ∈ xs →
      create_list_of_heap_nodes (pre ++ .seq xs :: post) =
        .error .invalidKey) ∧
    decide (Err.invalidArgument = Err.invalidKey) = false := by
  have head : ∀ E : Err, wrap_pair xs = .error E →
      create_list_of_heap_nodes (Elem.seq xs :: post) = .error E := by
    intro E hE
    unfold create_list_of_heap_nodes
    show (match wrap_elem (.seq xs) with
      | .error e => Except.error e
      | .ok nd => _) = Except.error E
    rw [show wrap_elem (.seq xs) = wrap_pair xs from rfl, hE]
  refine ⟨?_, ?_, by decide⟩
  · intro hlen
    exact create_list_of_heap_nodes_append_error pre hpre _ _
      (head _ (wrap_pair_wrong_arity xs hlen))
  · intro hlen hnone
    exact create_list_of_heap_nodes_append_error pre hpre _ _
      (head _ (wrap_pair_absent_entry xs hlen hnone))

/-- C5 witness: the theorem instantiated at the empty prefix, once with a
one-entry pair and once with a pair holding an absent key. -/
theorem claim_C5_construction_error_kinds_witness :
    create_list_of_heap_nodes [.seq [some 1]] = .error .invalidArgument ∧
    create_list_of_heap_nodes [.seq [none, some 2]] = .error .invalidKey :=
  ⟨(claim_C5_construction_error_kinds [] [] [some 1]
      (by intro e he; cases he)).1 (by decide),
   (claim_C5_construction_error_kinds [] [] [none, some 2]
      (by intro e he; cases he)).2.1 rfl (by decide)⟩

/-- C7: on a valid index `i`, `is_on_even_level` returns true exactly when
the floor of the base-2 logarithm of `i + 1` is even — witnessed by the
bracketing `2 ^ log2 (i + 1) ≤ i + 1 < 2 ^ (log2 (i + 1) + 1)`, which pins
`Nat.log2` as that floor — the root at index 0 is on an even level, and
`is_on_odd_level` is exactly the negation; on an invalid index both fail
with the invalid-index error. -/
theorem claim_C7_level_parity (i : Int) (n : Nat) :
    (is_good_index i n = true →
      (is_on_even_level i n = .ok true ↔ Nat.log2 (i + 1).toNat % 2 = 0) ∧
      (is_on_odd_level i n = .ok true ↔ ¬ Nat.log2 (i + 1).toNat % 2 = 0) ∧
      2 ^ Nat.log2 (i + 1).toNat ≤ (i + 1).toNat ∧
      (i + 1).toNat < 2 ^ (Nat.log2 (i + 1).toNat + 1)) ∧
    (0 < n → is_on_even_level 0 n = .ok true) ∧
    (is_good_index i n = false →
      is_on_even_level i n = .error .invalidIndex ∧
      is_on_odd_level i n = .error .invalidIndex) := by
  refine ⟨?_, ?_, ?_⟩
  · intro hgood
    have hi0 : 0 ≤ i := by
      by_contra hneg
      simp [is_good_index, Int.not_le.mp hneg] at hgood
    have hne : (i + 1).toNat ≠ 0 := by
      have : (0 : Int) < i + 1 := by omega
      omega
    refine ⟨?_, ?_, ?_, ?_⟩
    · rw [is_on_even_level, if_pos hgood]
      constructor
      · intro hok
        have := Except.ok.inj hok
        exact Nat.beq_eq_true_eq _ _ ▸ (by simpa using this)
      · intro hmod
        simp [hmod]
    · rw [is_on_odd_level, is_on_even_level, if_pos hgood]
      by_cases hmod : Nat.log2 (i + 1).toNat % 2 = 0 <;> simp [hmod]
    · rw [Nat.log2_eq_log_two]
      exact Nat.pow_log_le_self 2 hne
    · rw [Nat.log2_eq_log_two]
      exact Nat.lt_pow_succ_log_self (by omega) _
  · intro hn
    have hgood : is_good_index 0 n = true := by
      simp [is_good_index]
      omega
    rw [is_on_even_level, if_pos hgood]
    simp [Nat.log2]
  · intro hbad
    rw [is_on_odd_level, is_on_even_level, if_neg (by simp [hbad])]
    exact ⟨rfl, rfl⟩

/-- C7 witness: the theorem instantiated at the valid index 2 of a
five-node heap (an odd level), at the root of a singleton heap, and at the
out-of-range index 7. -/
theorem claim_C7_level_parity_witness :
    ((is_on_even_level 2 5 = .ok true ↔ Nat.log2 3 % 2 = 0) ∧
      2 ^ Nat.log2 3 ≤ 3) ∧
    is_on_even_level 0 1 = .ok true ∧
    is_on_even_level 7 5 = .error .invalidIndex := by
  have h1 := (claim_C7_level_parity 2 5).1 (by decide)
  have h2 := (claim_C7_level_parity 0 1).2.1 (by omega)
  have h3 := ((claim_C7_level_parity 7 5).2.2 (by decide)).1
  exact ⟨⟨h1.1, h1.2.2.1⟩, h2, h3⟩

end Ands
